import Mathlib

/-!
Shallow embedding of `src/computeDescriptors.py` (class `CustomMolModularDataset`).

Modelling conventions:
* Python floats are modelled as exact rationals (`ℚ`); `astype(np.float32)` is the
  identity in this model.  The not-a-number sentinel used for missing labels is
  modelled by `Option ℚ` with `none` playing the role of `np.nan`, so the label
  array `np.array([...])` of length 1 becomes `List (Option ℚ)` of length 1.
* The external numeric kernels that the class merely invokes are parameters of the
  context: `generate_DataBlock` (rdkit descriptor computation, lines 272-367) and
  `np_std` (`np.std`, whose square root is irrational and hence not representable
  as a rational-valued closed form).  `np.mean` is exact rational arithmetic and is
  defined directly.
* The file system is part of the explicit state: the combined per-sample pickle
  cache (`<cachefolder>/<ID>.pickle`) is an association list keyed by molecule ID,
  and the normalization-factor files (`normalization_factors_<spec>.dat`) are an
  association list keyed by the filter spec part of the file name.
* Python list indexing (`self.ligs[idx]`, and numpy 1-d indexing) accepts negative
  indices in `[-n, 0)` and raises `IndexError` outside `[-n, n)`: `pyIdx`.
* Exceptions are explicit: `Err`.  Mutations made before an exception is raised
  persist, so the stateful functions return a pair of state and optional error.
-/

namespace CD

/-- Exceptions that the modelled code can raise. -/
inductive Err where
  | indexError
  | nameError
  | typeError
  | statsMissing
  | buildOrder
  deriving DecidableEq, Repr

/-- Python/numpy 1-d index resolution: indices in `[0, n)` are used as is,
indices in `[-n, 0)` count from the end, anything else raises `IndexError`. -/
def pyIdx (n : ℕ) (i : ℤ) : Option ℕ :=
  if 0 ≤ i ∧ i < (n : ℤ) then some i.toNat
  else if -(n : ℤ) ≤ i ∧ i < 0 then some (i + (n : ℤ)).toNat
  else none

/-- Association-list lookup; a `cons` with the same key shadows older entries,
which models overwriting a file of the same name. -/
def lookupA {K V : Type} [DecidableEq K] : List (K × V) → K → Option V
  | [], _ => none
  | (k, v) :: rest, q => if q = k then some v else lookupA rest q

@[simp] theorem lookupA_nil {K V : Type} [DecidableEq K] (q : K) :
    lookupA ([] : List (K × V)) q = none := rfl

@[simp] theorem lookupA_cons {K V : Type} [DecidableEq K] (k : K) (v : V)
    (rest : List (K × V)) (q : K) :
    lookupA ((k, v) :: rest) q = if q = k then some v else lookupA rest q := rfl

/-- Zero-padding of a boolean sequence with trailing `false` entries up to the
next multiple of 8, as `np.packbits` does before packing. -/
def padTo8 (bs : List Bool) : List Bool :=
  bs ++ List.replicate ((8 - bs.length % 8) % 8) false

/-- Big-endian bit packing of a bit sequence whose length is a multiple of 8:
the first bit becomes the most significant bit of the first byte.  A trailing
group of fewer than 8 bits cannot occur after `padTo8`. -/
def toBytes : List Bool → List ℕ
  | b0 :: b1 :: b2 :: b3 :: b4 :: b5 :: b6 :: b7 :: rest =>
    (cond b0 128 0 + cond b1 64 0 + cond b2 32 0 + cond b3 16 0 +
     cond b4 8 0 + cond b5 4 0 + cond b6 2 0 + cond b7 1 0) :: toBytes rest
  | _ => []

/-- Model of `np.packbits` (default big bit order): zero-pad to a whole number
of bytes, then pack each group of 8 bits into one byte. -/
def packbits (bs : List Bool) : List ℕ :=
  toBytes (padTo8 bs)

/-- Round constants of md5: `md5K[i] = floor (abs (sin (i+1)) * 2^32)`. -/
def md5K : List ℕ :=
  [3614090360, 3905402710, 606105819, 3250441966, 4118548399, 1200080426, 2821735955, 4249261313,
   1770035416, 2336552879, 4294925233, 2304563134, 1804603682, 4254626195, 2792965006, 1236535329,
   4129170786, 3225465664, 643717713, 3921069994, 3593408605, 38016083, 3634488961, 3889429448,
   568446438, 3275163606, 4107603335, 1163531501, 2850285829, 4243563512, 1735328473, 2368359562,
   4294588738, 2272392833, 1839030562, 4259657740, 2763975236, 1272893353, 4139469664, 3200236656,
   681279174, 3936430074, 3572445317, 76029189, 3654602809, 3873151461, 530742520, 3299628645,
   4096336452, 1126891415, 2878612391, 4237533241, 1700485571, 2399980690, 4293915773, 2240044497,
   1873313359, 4264355552, 2734768916, 1309151649, 4149444226, 3174756917, 718787259, 3951481745]

/-- Per-round left-rotation amounts of md5. -/
def md5S : List ℕ :=
  [7, 12, 17, 22, 7, 12, 17, 22, 7, 12, 17, 22, 7, 12, 17, 22,
   5, 9, 14, 20, 5, 9, 14, 20, 5, 9, 14, 20, 5, 9, 14, 20,
   4, 11, 16, 23, 4, 11, 16, 23, 4, 11, 16, 23, 4, 11, 16, 23,
   6, 10, 15, 21, 6, 10, 15, 21, 6, 10, 15, 21, 6, 10, 15, 21]

/-- Left rotation of a 32-bit word (words are naturals below `2^32`). -/
def rotl32 (x n : ℕ) : ℕ :=
  ((x * 2 ^ n) % 4294967296) + (x / 2 ^ (32 - n))

/-- One of the 64 md5 rounds on the state `(a, b, c, d)`. -/
def md5Step (M : List ℕ) (st : ℕ × ℕ × ℕ × ℕ) (i : ℕ) : ℕ × ℕ × ℕ × ℕ :=
  let (a, b, c, d) := st
  let fg : ℕ × ℕ :=
    if i < 16 then ((b &&& c) ||| ((4294967295 - b) &&& d), i)
    else if i < 32 then ((d &&& b) ||| ((4294967295 - d) &&& c), (5 * i + 1) % 16)
    else if i < 48 then (b ^^^ c ^^^ d, (3 * i + 5) % 16)
    else (c ^^^ (b ||| (4294967295 - d)), (7 * i) % 16)
  let f := (fg.1 + a + md5K.getD i 0 + M.getD fg.2 0) % 4294967296
  (d, (b + rotl32 f (md5S.getD i 0)) % 4294967296, b, c)

/-- Decode a 64-byte chunk into 16 little-endian 32-bit words. -/
def md5Words (chunk : List ℕ) : List ℕ :=
  (List.range 16).map (fun w =>
    chunk.getD (4 * w) 0 + 256 * chunk.getD (4 * w + 1) 0 +
    65536 * chunk.getD (4 * w + 2) 0 + 16777216 * chunk.getD (4 * w + 3) 0)

/-- Process one 64-byte chunk of the padded message. -/
def md5Chunk (st : ℕ × ℕ × ℕ × ℕ) (chunk : List ℕ) : ℕ × ℕ × ℕ × ℕ :=
  let M := md5Words chunk
  let r := (List.range 64).foldl (md5Step M) st
  ((st.1 + r.1) % 4294967296, (st.2.1 + r.2.1) % 4294967296,
   (st.2.2.1 + r.2.2.1) % 4294967296, (st.2.2.2 + r.2.2.2) % 4294967296)

/-- md5 message padding: a `0x80` byte, zero bytes up to 56 mod 64, then the
original bit length as a little-endian 64-bit number. -/
def md5Pad (msg : List ℕ) : List ℕ :=
  msg ++ [128] ++ List.replicate ((119 - msg.length % 64) % 64) 0 ++
    (List.range 8).map (fun k => ((msg.length * 8) >>> (8 * k)) % 256)

/-- Split a byte list into chunks of 64 bytes. -/
def chunks64 : List ℕ → List (List ℕ)
  | [] => []
  | a :: rest => ((a :: rest).take 64) :: chunks64 ((a :: rest).drop 64)
  termination_by l => l.length
  decreasing_by simp; omega

/-- Little-endian byte decomposition of a 32-bit word. -/
def wordBytes (x : ℕ) : List ℕ :=
  [x % 256, (x / 256) % 256, (x / 65536) % 256, (x / 16777216) % 256]

/-- The md5 digest (16 bytes) of a byte string.  The Python code renders it as
`hexdigest()`; hex encoding is a bijection on byte strings, so digests are
modelled as the byte lists themselves.  This definition reproduces the standard
algorithm and matches the reference digests of `""` and `"abc"`. -/
def md5 (msg : List ℕ) : List ℕ :=
  let r := (chunks64 (md5Pad msg)).foldl md5Chunk
    (1732584193, 4023233417, 2562383102, 271733878)
  wordBytes r.1 ++ wordBytes r.2.1 ++ wordBytes r.2.2.1 ++ wordBytes r.2.2.2

/-- Cache-namespace digest of a block selection, line 127:
`hashlib.md5(np.packbits(np.array(representation_flags, dtype=bool)).tobytes()).hexdigest()`. -/
def selection_digest (flags : List Bool) : List ℕ :=
  md5 (packbits flags)

/-- Digest of an `X_filter` used in the normalization-stats file name, line 171:
`hashlib.md5(np.packbits(np.array(self.X_filter, dtype=bool)).tobytes()).hexdigest()`.
`X_filter` holds integer indices; `np.array(..., dtype=bool)` maps each entry to
`entry != 0` before packing. -/
def filter_digest (f : List ℤ) : List ℕ :=
  md5 (packbits (f.map (fun i => decide (i ≠ 0))))

/-- A molecule: the rdkit handle is reduced to the two properties the dataset
reads, the string identity `ID` and the optional label `dG` (absent → `none`,
which models the `np.nan` sentinel). -/
structure Mol where
  ID : String
  dG : Option ℚ
  deriving DecidableEq, Repr

/-- A combined-cache entry: the raw feature vector together with the length-1
label array, exactly what `pickle.dump((X, Y), f)` persists. -/
def Entry : Type := List ℚ × List (Option ℚ)

instance : DecidableEq Entry := by unfold Entry; infer_instance

/-- Name of a normalization-factors file inside the cache folder:
`normalization_factors__no_X_filter.dat`
or `normalization_factors__fiter_hash_<md5>.dat` (lines 168-173).  The two
string families are disjoint, so the file name is determined by this key. -/
inductive StatsKey where
  | noFilt
  | filt (digest : List ℕ)
  deriving DecidableEq, Repr

/-- Construction-time configuration of `CustomMolModularDataset`, together with
the external numeric kernels it calls.  `generate_DataBlock` stands for the
rdkit descriptor routines of lines 272-367 (external chemistry: a pure function
from molecule and block id to a vector), and `np_std` stands for
`np.std(..., axis=0)` (its square root is irrational, so it is kept as an
externally supplied pure function on the sample matrix). -/
structure Ctx where
  ligs : List Mol
  representation_flags : List Bool
  generate_DataBlock : Mol → ℕ → List ℚ
  X_filter : Option (List ℤ)
  use_combined_cache : Bool
  verbose : Bool
  internal_cache_maxMem : ℕ
  np_std : List (List ℚ) → List ℚ

/-- Mutable state of a dataset instance: the normalization fields, the
materialized in-memory cache, and the two disk artefacts (combined per-sample
cache and normalization-factor files). -/
structure St where
  normalize_x : Bool
  norm_mu : Option (List ℚ)
  norm_width : Option (List ℚ)
  combined_cache : List (String × Entry)
  normalization_files : List (StatsKey × (List ℚ × List ℚ))
  internal_filtered_cache : Option (List (List ℚ) × List (List (Option ℚ)))
  deriving DecidableEq

/-- The molecule at a resolved (non-negative, in-range) index. -/
def ligAt (ctx : Ctx) (j : ℕ) : Mol :=
  ctx.ligs.getD j ⟨"", none⟩

/-- Line 254: `np.array([float(lig.GetProp('dG')) if lig.HasProp('dG') else np.nan])`,
the length-1 label array. -/
def labelOf (lig : Mol) : List (Option ℚ) :=
  [lig.dG]

/-- Line 88: `np.where(self.representation_flags)[0]`, the indices of the
active blocks in declaration order. -/
def active_flags (flags : List Bool) : List ℕ :=
  (List.range flags.length).filter (fun i => flags.getD i false)

/-- Lines 372-410 (`transform`): concatenate the active blocks of molecule
`lig_idx` in `active_flags` order.  The per-block cache reads and writes of
lines 392-406 are commented out in the source, so each block is always computed
via `generate_DataBlock`; the directory creation has no effect on the data. -/
def transform (ctx : Ctx) (j : ℕ) : List ℚ :=
  ((active_flags ctx.representation_flags).map
    (fun i => ctx.generate_DataBlock (ligAt ctx j) i)).flatten

/-- Numpy fancy indexing `x[f]` with an integer index array: every index is
resolved with numpy index semantics, and any out-of-range index raises
`IndexError` (modelled by `none`). -/
def applyFancy (f : List ℤ) (x : List ℚ) : Option (List ℚ) :=
  f.mapM (fun i => (pyIdx x.length i).map (fun k => x.getD k 0))

/-- Lines 260-261: `X = X[self.X_filter]` when a filter is configured. -/
def applyXFilter (ctx : Ctx) (x : List ℚ) : Option (List ℚ) :=
  match ctx.X_filter with
  | none => some x
  | some f => applyFancy f x

/-- Elementwise `(x - mu) / width` of line 235 (numpy broadcasting over equal
lengths). -/
def normVec : List ℚ → List ℚ → List ℚ → List ℚ
  | a :: as, m :: ms, w :: ws => (a - m) / w :: normVec as ms ws
  | _, _, _ => []

/-- Line 249: the combined cache is consulted only when `use_combined_cache`
is set and the file for this molecule ID exists. -/
def combined_lookup (ctx : Ctx) (s : St) (id : String) : Option Entry :=
  if ctx.use_combined_cache then lookupA s.combined_cache id else none

/-- Lines 248-258: serve the raw `(X, Y)` pair from the combined cache if
possible, otherwise compute it (`transform` plus the label of line 254) and, if
the combined cache is enabled, persist it before returning. -/
def fetchBase (ctx : Ctx) (s : St) (j : ℕ) : Entry × St :=
  match combined_lookup ctx s (ligAt ctx j).ID with
  | some e => (e, s)
  | none =>
    let X := transform ctx j
    let Y := labelOf (ligAt ctx j)
    ((X, Y),
     if ctx.use_combined_cache then
       { s with combined_cache := ((ligAt ctx j).ID, (X, Y)) :: s.combined_cache }
     else s)

/-- Lines 232-235 (`normalize_input`) in the variant that is reached from the
passes inside `find_normalization_factors` itself: there the normalization
factors are always already resolved (the fresh pass runs with
`normalize_x = False`, and the loading branches set the factors before the pass
starts), so the recursive call of line 234 cannot trigger; `statsMissing`
marks that impossible branch.  A missing `norm_width` next to a present
`norm_mu` would make line 235 divide by `None` (`TypeError`). -/
def normalize_inputNR (s : St) (x : List ℚ) : Except Err (List ℚ × St) :=
  match s.norm_mu with
  | none => .error .statsMissing
  | some mu =>
    match s.norm_width with
    | none => .error .typeError
    | some w => .ok (normVec x mu w, s)

/-- Lines 266-268: serve `(X, Y)` from the materialized cache arrays, numpy
indexing each of the two dense arrays with the original index. -/
def memServe (s : St) (p : List (List ℚ) × List (List (Option ℚ))) (idx : ℤ) :
    Except Err (Entry × St) :=
  match pyIdx p.1.length idx with
  | none => .error .indexError
  | some a =>
    match pyIdx p.2.length idx with
    | none => .error .indexError
    | some b => .ok ((p.1.getD a [], p.2.getD b []), s)

/-- Lines 259-264: the post-processing applied after the raw pair `es.1` was
resolved (with the state `es.2` left by that resolution): the filter of lines
260-261, then the normalization of lines 262-264. -/
def postProcess (nf : St → List ℚ → Except Err (List ℚ × St)) (ctx : Ctx)
    (es : Entry × St) : Except Err (Entry × St) :=
  match applyXFilter ctx es.1.1 with
  | none => .error .indexError
  | some X1 =>
    if es.2.normalize_x then
      match nf es.2 X1 with
      | .error e => .error e
      | .ok (X2, s2) => .ok ((X2, es.1.2), s2)
    else .ok ((X1, es.1.2), es.2)

/-- Lines 242-270 (`__getitem__`), parametrized by the normalization routine so
that the body is written once: `nf` is `normalize_inputNR` inside
`find_normalization_factors` and the full `normalize_input` at top level.
Control flow: resolve the index against `self.ligs` (line 243); if the
materialized cache exists serve from it (lines 266-268); otherwise combined
cache / fresh computation (lines 246-258) followed by filter and
normalization (lines 259-264). -/
def getItemAux (nf : St → List ℚ → Except Err (List ℚ × St)) (ctx : Ctx)
    (s : St) (idx : ℤ) : Except Err (Entry × St) :=
  match pyIdx ctx.ligs.length idx with
  | none => .error .indexError
  | some j =>
    match s.internal_filtered_cache with
    | some p => memServe s p idx
    | none => postProcess nf ctx (fetchBase ctx s j)

/-- `__getitem__` as invoked from within `find_normalization_factors` (where
the recursion of line 234 is unreachable, see `normalize_inputNR`). -/
def getItemNR (ctx : Ctx) : St → ℤ → Except Err (Entry × St) :=
  getItemAux normalize_inputNR ctx

/-- Python iteration over the dataset (`for entry in self`): `__getitem__` is
called at 0, 1, 2, ... and the loop ends normally at the first `IndexError`
(the old-style sequence iteration protocol of `torch.utils.data.Dataset`
without `__iter__`); any other exception propagates, with the mutations made so
far kept.  `fuel` bounds the iteration; it is always called with more fuel than
the dataset length, and `pyIdx` fails at the length, so the bound is never the
reason the loop stops. -/
def passAux (g : St → ℤ → Except Err (Entry × St)) :
    ℕ → ℕ → St → List Entry → St × List Entry × Option Err
  | 0, _, s, acc => (s, acc, none)
  | fuel + 1, j, s, acc =>
    match g s (j : ℤ) with
    | .error .indexError => (s, acc, none)
    | .error e => (s, acc, some e)
    | .ok (v, s1) => passAux g fuel (j + 1) s1 (acc ++ [v])

/-- Iterate the whole dataset once, collecting the served entries in order. -/
def iterateSelf (g : St → ℤ → Except Err (Entry × St)) (n : ℕ) (s : St) :
    St × List Entry × Option Err :=
  passAux g (n + 1) 0 s []

/-- Lines 213-229 (`build_internal_filtered_cache`), parametrized by the
item-getter `g` for the same reason as `getItemAux`.  Line 216 evaluates
`self[0]` three times (for `self[0][0].shape[0]`, `self[0][1].shape[0]` and
`self[0][1].itemsize`); the label array is `float64`, so `itemsize` is 8.
If the estimate exceeds the budget the function prints and returns with the
materialized cache untouched; otherwise one full pass over the dataset fills
the two dense arrays. -/
def buildAux (g : St → ℤ → Except Err (Entry × St)) (ctx : Ctx) (s : St) :
    St × Option Err :=
  if s.norm_mu = none ∧ s.normalize_x then (s, some .buildOrder)
  else
    match g s 0 with
    | .error e => (s, some e)
    | .ok (e1, s1) =>
      match g s1 0 with
      | .error e => (s1, some e)
      | .ok (e2, s2) =>
        match g s2 0 with
        | .error e => (s2, some e)
        | .ok (_, s3) =>
          let neededMem := ctx.ligs.length * (e1.1.length + e2.2.length) * 8
          if ctx.internal_cache_maxMem < neededMem then (s3, none)
          else
            match iterateSelf g ctx.ligs.length s3 with
            | (s4, _, some e) => (s4, some e)
            | (s4, items, none) =>
              let cache := some (items.map Prod.fst, items.map Prod.snd)
              ({ s4 with internal_filtered_cache := cache }, none)

/-- Per-column arithmetic mean, `np.mean(allX, axis=0)` (exact in ℚ). -/
def meanCols (xs : List (List ℚ)) : List ℚ :=
  (List.range ((xs.headD []).length)).map
    (fun k => (xs.map (fun r => r.getD k 0)).sum / (xs.length : ℚ))

/-- Line 193: `self.norm_width[self.norm_width < 1e-7] = 1.0`, applied to one
width entry. -/
def floorW (v : ℚ) : ℚ :=
  if v < 1 / 10000000 then 1 else v

/-- The normalization-stats file key for the current configuration
(lines 168-173): the "no filter" name when `X_filter` is absent, the
filter-hash name otherwise. -/
def statsKey (ctx : Ctx) : StatsKey :=
  match ctx.X_filter with
  | none => .noFilt
  | some f => .filt (filter_digest f)

/-- The fresh-statistics pass of line 190: `self.normalize_x` is set to `False`
first (line 189), then `allX = np.array([entry[0] for entry in self])`. -/
def freshPass (ctx : Ctx) (s : St) : St × List Entry × Option Err :=
  iterateSelf (getItemNR ctx) ctx.ligs.length { s with normalize_x := false }

/-- Lines 188-202, the recompute branch of `find_normalization_factors`:
one pass over the samples with normalization off, per-dimension mean and
standard deviation, the width floor of line 193, `normalize_x = True`, and the
write of the stats file; then (line 203) `build_internal_filtered_cache`. -/
def freshNorm (ctx : Ctx) (s : St) : St × Option Err :=
  match freshPass ctx s with
  | (s2, _, some e) => (s2, some e)
  | (s2, items, none) =>
    let xs := items.map Prod.fst
    let mu := meanCols xs
    let w := (ctx.np_std xs).map floorW
    let s3 := { s2 with norm_mu := some mu, norm_width := some w, normalize_x := true }
    let s4 := { s3 with normalization_files := (statsKey ctx, (mu, w)) :: s3.normalization_files }
    buildAux (getItemNR ctx) ctx s4

/-- Lines 166-204 (`find_normalization_factors`).  Branch order: the file for
the current filter spec, else (filter active) the "no filter" file restricted
to the filtered indices, else recompute.  In both loading branches the verbose
print of lines 180 and 187 references the undefined local name `norm_mu`
(instead of `self.norm_mu`), which raises `NameError` after the factors have
been assigned; in the second branch the fancy indexing of lines 184-185 runs
first and can itself raise `IndexError`.  On success the function ends by
calling `build_internal_filtered_cache` (whose internal `__getitem__` calls
never re-enter this function, since the factors are set by then — see
`normalize_inputNR`). -/
def find_normalization_factors (ctx : Ctx) (s : St) : St × Option Err :=
  match lookupA s.normalization_files (statsKey ctx) with
  | some (m, w) =>
    let s1 := { s with norm_mu := some m, norm_width := some w }
    if ctx.verbose then (s1, some .nameError)
    else buildAux (getItemNR ctx) ctx s1
  | none =>
    match ctx.X_filter with
    | some f =>
      match lookupA s.normalization_files .noFilt with
      | some (m, w) =>
        match applyFancy f m with
        | none => (s, some .indexError)
        | some m1 =>
          match applyFancy f w with
          | none => ({ s with norm_mu := some m1 }, some .indexError)
          | some w1 =>
            let s1 := { s with norm_mu := some m1, norm_width := some w1 }
            if ctx.verbose then (s1, some .nameError)
            else buildAux (getItemNR ctx) ctx s1
      | none => freshNorm ctx s
    | none => freshNorm ctx s

/-- Lines 232-235 (`normalize_input`) at top level: when the factors are not
yet resolved, line 234 calls `find_normalization_factors` (which always sets
them on success) and line 235 then uses the updated fields. -/
def normalize_input (ctx : Ctx) (s : St) (x : List ℚ) : Except Err (List ℚ × St) :=
  match s.norm_mu with
  | some mu =>
    match s.norm_width with
    | none => .error .typeError
    | some w => .ok (normVec x mu w, s)
  | none =>
    match find_normalization_factors ctx s with
    | (_, some e) => .error e
    | (s2, none) =>
      match s2.norm_mu with
      | some mu =>
        match s2.norm_width with
        | none => .error .typeError
        | some w => .ok (normVec x mu w, s2)
      | none => .error .statsMissing

/-- `__getitem__` (lines 242-270). -/
def getItem (ctx : Ctx) : St → ℤ → Except Err (Entry × St) :=
  getItemAux (normalize_input ctx) ctx

/-- `build_internal_filtered_cache` (lines 213-229). -/
def build_internal_filtered_cache (ctx : Ctx) : St → St × Option Err :=
  buildAux (getItem ctx) ctx

/-- The raw entry that a fresh computation produces for resolved index `j`:
what line 253-254 compute and what line 257-258 persist. -/
def freshE (ctx : Ctx) (j : ℕ) : Entry :=
  (transform ctx j, labelOf (ligAt ctx j))

/-- The fully post-processed `(X, Y)` pair that the tiered path serves for
resolved index `j` from state `s` (it depends on `s` only through the
normalization fields): raw computation, then filter, then normalization. -/
def served (ctx : Ctx) (s : St) (j : ℕ) : Option Entry :=
  match applyXFilter ctx (transform ctx j) with
  | none => none
  | some xf =>
    if s.normalize_x then
      match s.norm_mu with
      | none => none
      | some mu =>
        match s.norm_width with
        | none => none
        | some w => some (normVec xf mu w, labelOf (ligAt ctx j))
    else some (xf, labelOf (ligAt ctx j))

/-- The combined cache is coherent when every cached entry for a molecule of
the dataset is exactly what a fresh computation would produce for it (the
round-trip invariant of the spec). -/
def coherent (ctx : Ctx) (cc : List (String × Entry)) : Prop :=
  ∀ j, j < ctx.ligs.length →
    lookupA cc (ligAt ctx j).ID = none ∨
    lookupA cc (ligAt ctx j).ID = some (freshE ctx j)

/-- Normalization is in a consistent configuration: if normalization is on,
both factors are resolved (this is the state in which the three cache tiers are
exercised; `find_normalization_factors` establishes it). -/
def statsOk (s : St) : Prop :=
  s.normalize_x = true → s.norm_mu ≠ none ∧ s.norm_width ≠ none

theorem pyIdx_lt {n : ℕ} {i : ℤ} {j : ℕ} (h : pyIdx n i = some j) : j < n := by
  unfold pyIdx at h
  split at h
  · rename_i hc
    cases h
    omega
  · split at h
    · rename_i hc
      cases h
      omega
    · cases h

theorem pyIdx_of_nonneg {n : ℕ} {i : ℤ} (h0 : 0 ≤ i) (hn : i < (n : ℤ)) :
    pyIdx n i = some i.toNat := by
  unfold pyIdx
  rw [if_pos ⟨h0, hn⟩]

theorem pyIdx_nat {n j : ℕ} (hj : j < n) : pyIdx n (j : ℤ) = some j := by
  rw [pyIdx_of_nonneg (by omega) (by omega)]
  simp

theorem pyIdx_of_neg {n : ℕ} {i : ℤ} (h1 : -(n : ℤ) ≤ i) (h2 : i < 0) :
    pyIdx n i = some (i + (n : ℤ)).toNat := by
  unfold pyIdx
  rw [if_neg (by omega), if_pos ⟨h1, h2⟩]

theorem pyIdx_out {n : ℕ} {i : ℤ} (h : i < -(n : ℤ) ∨ (n : ℤ) ≤ i) :
    pyIdx n i = none := by
  unfold pyIdx
  rw [if_neg (by omega), if_neg (by omega)]

theorem served_update {ctx : Ctx} {s : St} {cc : List (String × Entry)} {j : ℕ} :
    served ctx { s with combined_cache := cc } j = served ctx s j := rfl

theorem statsOk_update {s : St} {cc : List (String × Entry)} :
    statsOk { s with combined_cache := cc } ↔ statsOk s := Iff.rfl

theorem St_eta (s : St) : { s with combined_cache := s.combined_cache } = s := rfl

theorem nodup_ID_inj (ctx : Ctx) (hnd : (ctx.ligs.map Mol.ID).Nodup)
    {i k : ℕ} (hi : i < ctx.ligs.length) (hk : k < ctx.ligs.length)
    (he : (ligAt ctx i).ID = (ligAt ctx k).ID) : i = k := by
  have hinj := List.nodup_iff_injective_get.mp hnd
  have hi2 : i < (ctx.ligs.map Mol.ID).length := by simpa using hi
  have hk2 : k < (ctx.ligs.map Mol.ID).length := by simpa using hk
  have hgi : (ctx.ligs.map Mol.ID).get ⟨i, hi2⟩ = (ligAt ctx i).ID := by
    simp [ligAt, List.getD_eq_getElem, hi]
  have hgk : (ctx.ligs.map Mol.ID).get ⟨k, hk2⟩ = (ligAt ctx k).ID := by
    simp [ligAt, List.getD_eq_getElem, hk]
  have : (⟨i, hi2⟩ : Fin (ctx.ligs.map Mol.ID).length) = ⟨k, hk2⟩ :=
    hinj (by rw [hgi, hgk, he])
  simpa using congrArg Fin.val this

theorem coherent_of_cv {ctx : Ctx} {cc : List (String × Entry)} {s : St}
    (hco : coherent ctx cc) (hcc : s.combined_cache = cc) {j : ℕ}
    (hj : j < ctx.ligs.length) :
    ∀ e, combined_lookup ctx s (ligAt ctx j).ID = some e → e = freshE ctx j := by
  intro e he
  unfold combined_lookup at he
  split at he
  · rw [hcc] at he
    rcases hco j hj with h | h
    · rw [h] at he
      cases he
    · rw [h] at he
      cases he
      rfl
  · cases he

theorem coherent_insert {ctx : Ctx} {cc : List (String × Entry)}
    (hco : coherent ctx cc) (hnd : (ctx.ligs.map Mol.ID).Nodup)
    {j : ℕ} (hj : j < ctx.ligs.length) :
    coherent ctx (((ligAt ctx j).ID, freshE ctx j) :: cc) := by
  intro k hk
  rw [lookupA_cons]
  by_cases hid : (ligAt ctx k).ID = (ligAt ctx j).ID
  · right
    rw [if_pos hid]
    have : k = j := nodup_ID_inj ctx hnd hk hj hid
    subst this
    rfl
  · rw [if_neg hid]
    exact hco k hk

theorem getD_map_floorW (l : List ℚ) (i : ℕ) (hi : i < l.length) :
    (l.map floorW).getD i 0 = floorW (l.getD i 0) := by
  induction l generalizing i with
  | nil => simp at hi
  | cons a as ih =>
    cases i with
    | zero => simp
    | succ k =>
      simp only [List.map_cons, List.getD_cons_succ]
      exact ih k (by simpa using hi)

theorem normVec_getD (x m w : List ℚ) (i : ℕ)
    (hx : i < x.length) (hm : i < m.length) (hw : i < w.length) :
    (normVec x m w).getD i 0 = (x.getD i 0 - m.getD i 0) / w.getD i 0 := by
  induction x generalizing m w i with
  | nil => simp at hx
  | cons a as ih =>
    cases m with
    | nil => simp at hm
    | cons b bs =>
      cases w with
      | nil => simp at hw
      | cons c cs =>
        cases i with
        | zero => simp [normVec]
        | succ k =>
          simp only [normVec, List.getD_cons_succ]
          exact ih bs cs k (by simpa using hx) (by simpa using hm) (by simpa using hw)

theorem upd_cc_normalize_x (s : St) (cc : List (String × Entry)) :
    ({ s with combined_cache := cc } : St).normalize_x = s.normalize_x := rfl

theorem upd_cc_norm_mu (s : St) (cc : List (String × Entry)) :
    ({ s with combined_cache := cc } : St).norm_mu = s.norm_mu := rfl

theorem upd_cc_norm_width (s : St) (cc : List (String × Entry)) :
    ({ s with combined_cache := cc } : St).norm_width = s.norm_width := rfl

theorem getItemAux_outOfRange {nf : St → List ℚ → Except Err (List ℚ × St)}
    {ctx : Ctx} {s : St} {idx : ℤ}
    (hj : pyIdx ctx.ligs.length idx = none) :
    getItemAux nf ctx s idx = .error .indexError := by
  unfold getItemAux
  rw [hj]

theorem getItemAux_mem {nf : St → List ℚ → Except Err (List ℚ × St)}
    {ctx : Ctx} {s : St} {idx : ℤ} {j : ℕ}
    {p : List (List ℚ) × List (List (Option ℚ))}
    (hj : pyIdx ctx.ligs.length idx = some j)
    (hic : s.internal_filtered_cache = some p) :
    getItemAux nf ctx s idx = memServe s p idx := by
  unfold getItemAux
  rw [hj, hic]

theorem getItemAux_disk {nf : St → List ℚ → Except Err (List ℚ × St)}
    {ctx : Ctx} {s : St} {idx : ℤ} {j : ℕ}
    (hj : pyIdx ctx.ligs.length idx = some j)
    (hic : s.internal_filtered_cache = none) :
    getItemAux nf ctx s idx = postProcess nf ctx (fetchBase ctx s j) := by
  unfold getItemAux
  rw [hj, hic]

theorem fetchBase_hit {ctx : Ctx} {s : St} {j : ℕ} {e : Entry}
    (h : combined_lookup ctx s (ligAt ctx j).ID = some e) :
    fetchBase ctx s j = (e, s) := by
  unfold fetchBase
  rw [h]

theorem fetchBase_miss_on {ctx : Ctx} {s : St} {j : ℕ}
    (h : combined_lookup ctx s (ligAt ctx j).ID = none)
    (hcu : ctx.use_combined_cache = true) :
    fetchBase ctx s j = (freshE ctx j,
      { s with combined_cache := ((ligAt ctx j).ID, freshE ctx j) :: s.combined_cache }) := by
  unfold fetchBase
  rw [h, hcu]
  rfl

theorem fetchBase_miss_off {ctx : Ctx} {s : St} {j : ℕ}
    (h : combined_lookup ctx s (ligAt ctx j).ID = none)
    (hcu : ctx.use_combined_cache = false) :
    fetchBase ctx s j = (freshE ctx j, s) := by
  unfold fetchBase
  rw [h, hcu]
  rfl

theorem postProcess_NR (ctx : Ctx) (j : ℕ) (s1 : St) (v : Entry)
    (hv : served ctx s1 j = some v) :
    postProcess normalize_inputNR ctx (freshE ctx j, s1) = .ok (v, s1) := by
  unfold served at hv
  unfold postProcess
  show (match applyXFilter ctx (transform ctx j) with
    | none => Except.error Err.indexError
    | some X1 =>
      if s1.normalize_x then
        match normalize_inputNR s1 X1 with
        | .error e => .error e
        | .ok (X2, s2) => .ok ((X2, labelOf (ligAt ctx j)), s2)
      else .ok ((X1, labelOf (ligAt ctx j)), s1)) = .ok (v, s1)
  rcases hxf : applyXFilter ctx (transform ctx j) with _ | xf
  · rw [hxf] at hv
    cases hv
  · rw [hxf] at hv
    cases hnx : s1.normalize_x with
    | false =>
      rw [hnx] at hv
      simp only [Bool.false_eq_true, if_false] at hv ⊢
      cases hv
      rfl
    | true =>
      rw [hnx] at hv
      simp only [if_true] at hv ⊢
      unfold normalize_inputNR
      rcases hmu : s1.norm_mu with _ | mu
      · rw [hmu] at hv
        cases hv
      · rw [hmu] at hv
        rcases hw : s1.norm_width with _ | w
        · rw [hw] at hv
          cases hv
        · rw [hw] at hv
          cases hv
          rfl

theorem getItemNR_spec (ctx : Ctx) (s : St) (idx : ℤ) (j : ℕ) (v : Entry)
    (hj : pyIdx ctx.ligs.length idx = some j)
    (hint : s.internal_filtered_cache = none)
    (hcv : ∀ e, combined_lookup ctx s (ligAt ctx j).ID = some e → e = freshE ctx j)
    (hv : served ctx s j = some v) :
    ∃ cc, getItemNR ctx s idx = .ok (v, { s with combined_cache := cc }) ∧
      (cc = s.combined_cache ∨
       cc = ((ligAt ctx j).ID, freshE ctx j) :: s.combined_cache) ∧
      (combined_lookup ctx s (ligAt ctx j).ID = none → ctx.use_combined_cache = true →
        cc = ((ligAt ctx j).ID, freshE ctx j) :: s.combined_cache) ∧
      (∀ e, combined_lookup ctx s (ligAt ctx j).ID = some e → cc = s.combined_cache) := by
  rw [getItemNR, getItemAux_disk hj hint]
  rcases hlk : combined_lookup ctx s (ligAt ctx j).ID with _ | e
  · cases hcu : ctx.use_combined_cache with
    | false =>
      refine ⟨s.combined_cache, ?_, Or.inl rfl, ?_, ?_⟩
      · rw [fetchBase_miss_off hlk hcu, St_eta]
        exact postProcess_NR ctx j s v hv
      · intro _ h2
        simp at h2
      · intro e he
        simp at he
    | true =>
      refine ⟨((ligAt ctx j).ID, freshE ctx j) :: s.combined_cache, ?_, Or.inr rfl,
        fun _ _ => rfl, ?_⟩
      · rw [fetchBase_miss_on hlk hcu]
        exact postProcess_NR ctx j _ v (by rw [served_update]; exact hv)
      · intro e he
        simp at he
  · refine ⟨s.combined_cache, ?_, Or.inl rfl, ?_, fun _ _ => rfl⟩
    · rw [fetchBase_hit hlk, hcv e hlk, St_eta]
      exact postProcess_NR ctx j s v hv
    · intro h1
      simp at h1

/-- The state fields that `__getitem__` can never change. -/
def framePres (s t : St) : Prop :=
  t.normalize_x = s.normalize_x ∧ t.norm_mu = s.norm_mu ∧
  t.norm_width = s.norm_width ∧ t.normalization_files = s.normalization_files ∧
  t.internal_filtered_cache = s.internal_filtered_cache

theorem framePres_refl (s : St) : framePres s s :=
  ⟨rfl, rfl, rfl, rfl, rfl⟩

theorem framePres_trans {s t u : St} (h1 : framePres s t) (h2 : framePres t u) :
    framePres s u := by
  obtain ⟨a1, b1, c1, d1, e1⟩ := h1
  obtain ⟨a2, b2, c2, d2, e2⟩ := h2
  exact ⟨a2.trans a1, b2.trans b1, c2.trans c1, d2.trans d1, e2.trans e1⟩

theorem memServe_frame {s : St} {p : List (List ℚ) × List (List (Option ℚ))}
    {idx : ℤ} {v : Entry} {t : St}
    (h : memServe s p idx = .ok (v, t)) : t = s := by
  unfold memServe at h
  rcases hpa : pyIdx p.1.length idx with _ | a
  · rw [hpa] at h
    cases h
  · rw [hpa] at h
    rcases hpb : pyIdx p.2.length idx with _ | b
    · rw [hpb] at h
      cases h
    · rw [hpb] at h
      cases h
      rfl

theorem postProcess_NR_frame {ctx : Ctx} {es : Entry × St} {v : Entry} {t : St}
    (h : postProcess normalize_inputNR ctx es = .ok (v, t)) : t = es.2 := by
  unfold postProcess at h
  rcases hxf : applyXFilter ctx es.1.1 with _ | x1
  · rw [hxf] at h
    cases h
  · rw [hxf] at h
    cases hnx : es.2.normalize_x with
    | false =>
      rw [hnx] at h
      simp only [Bool.false_eq_true, if_false] at h
      cases h
      rfl
    | true =>
      rw [hnx] at h
      simp only [if_true] at h
      unfold normalize_inputNR at h
      rcases hmu : es.2.norm_mu with _ | mu
      · rw [hmu] at h
        cases h
      · rw [hmu] at h
        rcases hw : es.2.norm_width with _ | w
        · rw [hw] at h
          cases h
        · rw [hw] at h
          cases h
          rfl

theorem fetchBase_snd (ctx : Ctx) (s : St) (j : ℕ) :
    ∃ cc, (fetchBase ctx s j).2 = { s with combined_cache := cc } := by
  rcases hlk : combined_lookup ctx s (ligAt ctx j).ID with _ | e
  · cases hcu : ctx.use_combined_cache with
    | false =>
      rw [fetchBase_miss_off hlk hcu]
      exact ⟨s.combined_cache, rfl⟩
    | true =>
      rw [fetchBase_miss_on hlk hcu]
      exact ⟨((ligAt ctx j).ID, freshE ctx j) :: s.combined_cache, rfl⟩
  · rw [fetchBase_hit hlk]
    exact ⟨s.combined_cache, rfl⟩

theorem getItemNR_frame {ctx : Ctx} {s : St} {idx : ℤ} {v : Entry} {t : St}
    (h : getItemNR ctx s idx = .ok (v, t)) : framePres s t := by
  rw [getItemNR] at h
  rcases hj : pyIdx ctx.ligs.length idx with _ | j
  · rw [getItemAux_outOfRange hj] at h
    cases h
  · rcases hic : s.internal_filtered_cache with _ | p
    · rw [getItemAux_disk hj hic] at h
      obtain ⟨cc, hcc⟩ := fetchBase_snd ctx s j
      have := postProcess_NR_frame h
      rw [hcc] at this
      subst this
      exact ⟨rfl, rfl, rfl, rfl, rfl⟩
    · rw [getItemAux_mem hj hic] at h
      have := memServe_frame h
      subst this
      exact framePres_refl _

/-- The entries that one full successful pass over the dataset serves, in
index order. -/
def servedAll (ctx : Ctx) (s : St) : List Entry :=
  (List.range ctx.ligs.length).map (fun k => (served ctx s k).getD ([], []))

theorem passAux_specNR (ctx : Ctx) (hnd : (ctx.ligs.map Mol.ID).Nodup) :
    ∀ (fuel jx : ℕ) (s : St) (acc : List Entry),
    jx + fuel = ctx.ligs.length + 1 →
    s.internal_filtered_cache = none →
    coherent ctx s.combined_cache →
    (∀ k, k < ctx.ligs.length → (served ctx s k).isSome) →
    ∃ cc, passAux (getItemNR ctx) fuel jx s acc =
      ({ s with combined_cache := cc },
       acc ++ (List.range' jx (ctx.ligs.length - jx)).map
         (fun k => (served ctx s k).getD ([], [])), none) ∧
      coherent ctx cc := by
  intro fuel
  induction fuel with
  | zero =>
    intro jx s acc hfj hint hco hall
    have hjx : ctx.ligs.length - jx = 0 := by omega
    refine ⟨s.combined_cache, ?_, hco⟩
    rw [St_eta, hjx]
    simp [passAux]
  | succ fuel ih =>
    intro jx s acc hfj hint hco hall
    by_cases hjx : jx < ctx.ligs.length
    · have hj : pyIdx ctx.ligs.length (jx : ℤ) = some jx := pyIdx_nat hjx
      have hcv := coherent_of_cv hco rfl hjx
      obtain ⟨v, hv⟩ := Option.isSome_iff_exists.mp (hall jx hjx)
      obtain ⟨cc1, hstep, hcc1, hcm1, hch1⟩ := getItemNR_spec ctx s (jx : ℤ) jx v hj hint hcv hv
      have hco1 : coherent ctx cc1 := by
        rcases hcc1 with h | h
        · rw [h]; exact hco
        · rw [h]; exact coherent_insert hco hnd hjx
      have hall1 : ∀ k, k < ctx.ligs.length →
          (served ctx { s with combined_cache := cc1 } k).isSome := by
        intro k hk
        rw [served_update]
        exact hall k hk
      obtain ⟨cc, hrest, hcoh⟩ := ih (jx + 1) { s with combined_cache := cc1 }
        (acc ++ [v]) (by omega) hint hco1 hall1
      refine ⟨cc, ?_, hcoh⟩
      show passAux (getItemNR ctx) (fuel + 1) jx s acc = _
      rw [passAux, hstep]
      show passAux (getItemNR ctx) fuel (jx + 1) { s with combined_cache := cc1 }
        (acc ++ [v]) = _
      rw [hrest]
      have hrange : List.range' jx (ctx.ligs.length - jx) =
          jx :: List.range' (jx + 1) (ctx.ligs.length - (jx + 1)) := by
        have h1 : ctx.ligs.length - jx = (ctx.ligs.length - (jx + 1)) + 1 := by omega
        rw [h1, List.range'_succ]
      rw [hrange]
      simp only [List.map_cons, served_update, hv, Option.getD_some, List.append_assoc,
        List.singleton_append]
    · have hjn : jx = ctx.ligs.length := by omega
      have hj : pyIdx ctx.ligs.length (jx : ℤ) = none := by
        apply pyIdx_out
        right
        omega
      refine ⟨s.combined_cache, ?_, hco⟩
      show passAux (getItemNR ctx) (fuel + 1) jx s acc = _
      rw [passAux, getItemNR, getItemAux_outOfRange hj]
      rw [St_eta]
      have : ctx.ligs.length - jx = 0 := by omega
      rw [this]
      simp

theorem iterateSelf_specNR (ctx : Ctx) (s : St)
    (hnd : (ctx.ligs.map Mol.ID).Nodup)
    (hint : s.internal_filtered_cache = none)
    (hco : coherent ctx s.combined_cache)
    (hall : ∀ k, k < ctx.ligs.length → (served ctx s k).isSome) :
    ∃ cc, iterateSelf (getItemNR ctx) ctx.ligs.length s =
      ({ s with combined_cache := cc }, servedAll ctx s, none) ∧
      coherent ctx cc := by
  obtain ⟨cc, hpass, hcoh⟩ := passAux_specNR ctx hnd (ctx.ligs.length + 1) 0 s []
    (by omega) hint hco hall
  refine ⟨cc, ?_, hcoh⟩
  rw [iterateSelf, hpass]
  have : List.range' 0 (ctx.ligs.length - 0) = List.range ctx.ligs.length := by
    rw [Nat.sub_zero, List.range_eq_range']
  rw [this]
  rfl

theorem passAux_frameNR (ctx : Ctx) :
    ∀ (fuel jx : ℕ) (s : St) (acc : List Entry),
    framePres s (passAux (getItemNR ctx) fuel jx s acc).1 := by
  intro fuel
  induction fuel with
  | zero => intro jx s acc; exact framePres_refl s
  | succ fuel ih =>
    intro jx s acc
    show framePres s (passAux (getItemNR ctx) (fuel + 1) jx s acc).1
    rw [passAux]
    rcases hg : getItemNR ctx s (jx : ℤ) with err | ⟨v, s1⟩
    · cases err <;> exact framePres_refl s
    · exact framePres_trans (getItemNR_frame hg) (ih (jx + 1) s1 (acc ++ [v]))

theorem buildOrder_pass {s : St} (hst : statsOk s) :
    ¬(s.norm_mu = none ∧ s.normalize_x = true) := by
  rintro ⟨h1, h2⟩
  exact (hst h2).1 h1

/-- The dense pair of arrays that a successful materialization pass stores. -/
def materializedOf (ctx : Ctx) (s : St) :
    Option (List (List ℚ) × List (List (Option ℚ))) :=
  some ((servedAll ctx s).map Prod.fst, (servedAll ctx s).map Prod.snd)

theorem buildAux_frameNR {ctx : Ctx} {s t : St} {e : Option Err}
    (h : buildAux (getItemNR ctx) ctx s = (t, e)) :
    t.normalize_x = s.normalize_x ∧ t.norm_mu = s.norm_mu ∧
    t.norm_width = s.norm_width ∧ t.normalization_files = s.normalization_files := by
  unfold buildAux at h
  by_cases hpre : s.norm_mu = none ∧ s.normalize_x = true
  · rw [if_pos hpre] at h
    cases h
    exact ⟨rfl, rfl, rfl, rfl⟩
  · rw [if_neg hpre] at h
    rcases hg1 : getItemNR ctx s 0 with err1 | ⟨v1, s1⟩ <;> simp only [hg1] at h
    · cases h
      exact ⟨rfl, rfl, rfl, rfl⟩
    · have f1 := getItemNR_frame hg1
      rcases hg2 : getItemNR ctx s1 0 with err2 | ⟨v2, s2⟩ <;> simp only [hg2] at h
      · cases h
        exact ⟨f1.1, f1.2.1, f1.2.2.1, f1.2.2.2.1⟩
      · have f2 := framePres_trans f1 (getItemNR_frame hg2)
        rcases hg3 : getItemNR ctx s2 0 with err3 | ⟨v3, s3⟩ <;> simp only [hg3] at h
        · cases h
          exact ⟨f2.1, f2.2.1, f2.2.2.1, f2.2.2.2.1⟩
        · have f3 := framePres_trans f2 (getItemNR_frame hg3)
          by_cases hmem : ctx.internal_cache_maxMem <
              ctx.ligs.length * (v1.1.length + v2.2.length) * 8
          · rw [if_pos hmem] at h
            cases h
            exact ⟨f3.1, f3.2.1, f3.2.2.1, f3.2.2.2.1⟩
          · rw [if_neg hmem] at h
            have f4 := framePres_trans f3
              (passAux_frameNR ctx (ctx.ligs.length + 1) 0 s3 [])
            rcases hit : iterateSelf (getItemNR ctx) ctx.ligs.length s3 with
              ⟨s4, items, _ | err4⟩ <;> simp only [hit] at h <;>
              [skip; skip] <;>
              · have hps : passAux (getItemNR ctx) (ctx.ligs.length + 1) 0 s3 [] =
                  (iterateSelf (getItemNR ctx) ctx.ligs.length s3) := rfl
                rw [hps, hit] at f4
                have f5 : framePres s s4 := f4
                cases h
                exact ⟨f5.1, f5.2.1, f5.2.2.1, f5.2.2.2.1⟩

theorem buildAux_skipNR (ctx : Ctx) (s : St) (v0 : Entry)
    (hnd : (ctx.ligs.map Mol.ID).Nodup)
    (hint : s.internal_filtered_cache = none)
    (hst : statsOk s)
    (hco : coherent ctx s.combined_cache)
    (hn : 0 < ctx.ligs.length)
    (hv0 : served ctx s 0 = some v0)
    (hbig : ctx.internal_cache_maxMem <
      ctx.ligs.length * (v0.1.length + v0.2.length) * 8) :
    ∃ cc, buildAux (getItemNR ctx) ctx s = ({ s with combined_cache := cc }, none) ∧
      coherent ctx cc := by
  have hj : pyIdx ctx.ligs.length (0 : ℤ) = some 0 := pyIdx_nat hn
  obtain ⟨cc1, hg1, hcc1, hcm1, hch1⟩ := getItemNR_spec ctx s 0 0 v0 hj hint
    (coherent_of_cv hco rfl hn) hv0
  have hco1 : coherent ctx cc1 := by
    rcases hcc1 with h | h
    · rw [h]; exact hco
    · rw [h]; exact coherent_insert hco hnd hn
  obtain ⟨cc2, hg2, hcc2, hcm2, hch2⟩ := getItemNR_spec ctx { s with combined_cache := cc1 } 0 0 v0 hj
    hint (coherent_of_cv hco1 rfl hn) hv0
  have hco2 : coherent ctx cc2 := by
    rcases hcc2 with h | h
    · rw [h]; exact hco1
    · rw [h]; exact coherent_insert hco1 hnd hn
  obtain ⟨cc3, hg3, hcc3, hcm3, hch3⟩ := getItemNR_spec ctx { s with combined_cache := cc2 } 0 0 v0 hj
    hint (coherent_of_cv hco2 rfl hn) hv0
  have hco3 : coherent ctx cc3 := by
    rcases hcc3 with h | h
    · rw [h]; exact hco2
    · rw [h]; exact coherent_insert hco2 hnd hn
  refine ⟨cc3, ?_, hco3⟩
  unfold buildAux
  rw [if_neg (buildOrder_pass hst)]
  simp only [hg1, hg2, hg3]
  rw [if_pos hbig]

theorem buildAux_buildNR (ctx : Ctx) (s : St) (v0 : Entry)
    (hnd : (ctx.ligs.map Mol.ID).Nodup)
    (hint : s.internal_filtered_cache = none)
    (hst : statsOk s)
    (hco : coherent ctx s.combined_cache)
    (hn : 0 < ctx.ligs.length)
    (hall : ∀ k, k < ctx.ligs.length → (served ctx s k).isSome)
    (hv0 : served ctx s 0 = some v0)
    (hsmall : ¬ ctx.internal_cache_maxMem <
      ctx.ligs.length * (v0.1.length + v0.2.length) * 8) :
    ∃ cc, buildAux (getItemNR ctx) ctx s =
      ({ s with combined_cache := cc, internal_filtered_cache := materializedOf ctx s }, none) ∧
      coherent ctx cc := by
  have hj : pyIdx ctx.ligs.length (0 : ℤ) = some 0 := pyIdx_nat hn
  obtain ⟨cc1, hg1, hcc1, hcm1, hch1⟩ := getItemNR_spec ctx s 0 0 v0 hj hint
    (coherent_of_cv hco rfl hn) hv0
  have hco1 : coherent ctx cc1 := by
    rcases hcc1 with h | h
    · rw [h]; exact hco
    · rw [h]; exact coherent_insert hco hnd hn
  obtain ⟨cc2, hg2, hcc2, hcm2, hch2⟩ := getItemNR_spec ctx { s with combined_cache := cc1 } 0 0 v0 hj
    hint (coherent_of_cv hco1 rfl hn) hv0
  have hco2 : coherent ctx cc2 := by
    rcases hcc2 with h | h
    · rw [h]; exact hco1
    · rw [h]; exact coherent_insert hco1 hnd hn
  obtain ⟨cc3, hg3, hcc3, hcm3, hch3⟩ := getItemNR_spec ctx { s with combined_cache := cc2 } 0 0 v0 hj
    hint (coherent_of_cv hco2 rfl hn) hv0
  have hco3 : coherent ctx cc3 := by
    rcases hcc3 with h | h
    · rw [h]; exact hco2
    · rw [h]; exact coherent_insert hco2 hnd hn
  have hall3 : ∀ k, k < ctx.ligs.length →
      (served ctx { s with combined_cache := cc3 } k).isSome := by
    intro k hk
    rw [served_update]
    exact hall k hk
  obtain ⟨cc, hpass, hcoh⟩ := iterateSelf_specNR ctx { s with combined_cache := cc3 } hnd
    hint hco3 hall3
  refine ⟨cc, ?_, hcoh⟩
  unfold buildAux
  rw [if_neg (buildOrder_pass hst)]
  simp only [hg1, hg2, hg3]
  rw [if_neg hsmall]
  simp only [hpass]
  have hsa : servedAll ctx { s with combined_cache := cc3 } = servedAll ctx s := by
    unfold servedAll
    simp only [served_update]
  rw [hsa]
  rfl

theorem normalize_input_eq (ctx : Ctx) (s : St) (x : List ℚ) (h : s.norm_mu ≠ none) :
    normalize_input ctx s x = normalize_inputNR s x := by
  rcases hmu : s.norm_mu with _ | mu
  · exact absurd hmu h
  · unfold normalize_input normalize_inputNR
    rw [hmu]

theorem statsOk_of_frame {s t : St} (hf : framePres s t) (hst : statsOk s) :
    statsOk t := by
  intro hnx
  rw [hf.2.1, hf.2.2.1]
  exact hst (hf.1 ▸ hnx)

theorem postProcess_eq (ctx : Ctx) (es : Entry × St) (hst : statsOk es.2) :
    postProcess (normalize_input ctx) ctx es = postProcess normalize_inputNR ctx es := by
  unfold postProcess
  rcases hxf : applyXFilter ctx es.1.1 with _ | x1
  · rfl
  · cases hnx : es.2.normalize_x
    · rfl
    · simp only []
      rw [normalize_input_eq ctx es.2 x1 (hst hnx).1]

theorem getItem_eq_NR (ctx : Ctx) (s : St) (idx : ℤ) (hst : statsOk s) :
    getItem ctx s idx = getItemNR ctx s idx := by
  rw [getItem, getItemNR]
  rcases hj : pyIdx ctx.ligs.length idx with _ | j
  · rw [getItemAux_outOfRange hj, getItemAux_outOfRange hj]
  · rcases hic : s.internal_filtered_cache with _ | p
    · rw [getItemAux_disk hj hic, getItemAux_disk hj hic]
      apply postProcess_eq
      obtain ⟨cc, hcc⟩ := fetchBase_snd ctx s j
      rw [hcc]
      exact hst
    · rw [getItemAux_mem hj hic, getItemAux_mem hj hic]

theorem passAux_congr (ctx : Ctx) :
    ∀ (fuel jx : ℕ) (s : St) (acc : List Entry), statsOk s →
    passAux (getItem ctx) fuel jx s acc = passAux (getItemNR ctx) fuel jx s acc := by
  intro fuel
  induction fuel with
  | zero => intro jx s acc _; rfl
  | succ fuel ih =>
    intro jx s acc hst
    rw [passAux, passAux, getItem_eq_NR ctx s (jx : ℤ) hst]
    rcases hg : getItemNR ctx s (jx : ℤ) with err | ⟨v, s1⟩
    · cases err <;> rfl
    · exact ih (jx + 1) s1 (acc ++ [v]) (statsOk_of_frame (getItemNR_frame hg) hst)

theorem buildAux_congr (ctx : Ctx) (s : St) (hst : statsOk s) :
    buildAux (getItem ctx) ctx s = buildAux (getItemNR ctx) ctx s := by
  unfold buildAux
  by_cases hpre : s.norm_mu = none ∧ s.normalize_x = true
  · rw [if_pos hpre, if_pos hpre]
  · rw [if_neg hpre, if_neg hpre, getItem_eq_NR ctx s 0 hst]
    rcases hg1 : getItemNR ctx s 0 with err1 | ⟨v1, s1⟩
    · rfl
    have hst1 := statsOk_of_frame (getItemNR_frame hg1) hst
    simp only []
    rw [getItem_eq_NR ctx s1 0 hst1]
    rcases hg2 : getItemNR ctx s1 0 with err2 | ⟨v2, s2⟩
    · rfl
    have hst2 := statsOk_of_frame (getItemNR_frame hg2) hst1
    simp only []
    rw [getItem_eq_NR ctx s2 0 hst2]
    rcases hg3 : getItemNR ctx s2 0 with err3 | ⟨v3, s3⟩
    · rfl
    have hst3 := statsOk_of_frame (getItemNR_frame hg3) hst2
    simp only []
    by_cases hmem : ctx.internal_cache_maxMem <
        ctx.ligs.length * (v1.1.length + v2.2.length) * 8
    · rw [if_pos hmem, if_pos hmem]
    · rw [if_neg hmem, if_neg hmem]
      have : iterateSelf (getItem ctx) ctx.ligs.length s3 =
          iterateSelf (getItemNR ctx) ctx.ligs.length s3 := by
        unfold iterateSelf
        exact passAux_congr ctx (ctx.ligs.length + 1) 0 s3 [] hst3
      rw [this]

theorem find_hit (ctx : Ctx) (s : St) (m w : List ℚ)
    (hhit : lookupA s.normalization_files (statsKey ctx) = some (m, w)) :
    ∃ s' e, find_normalization_factors ctx s = (s', e) ∧
      s'.norm_mu = some m ∧ s'.norm_width = some w ∧
      s'.normalization_files = s.normalization_files ∧
      s'.normalize_x = s.normalize_x ∧
      (ctx.verbose = true → e = some .nameError) := by
  cases hv : ctx.verbose
  · rcases hb : buildAux (getItemNR ctx) ctx
      { s with norm_mu := some m, norm_width := some w } with ⟨t, e⟩
    have hf := buildAux_frameNR hb
    refine ⟨t, e, ?_, hf.2.1, hf.2.2.1, hf.2.2.2, hf.1, ?_⟩
    · unfold find_normalization_factors
      rw [hhit]
      simp only []
      rw [hv]
      exact hb
    · intro hvt
      simp at hvt
  · refine ⟨{ s with norm_mu := some m, norm_width := some w }, some .nameError,
      ?_, rfl, rfl, rfl, rfl, fun _ => rfl⟩
    unfold find_normalization_factors
    rw [hhit]
    simp only []
    rw [hv]
    exact if_pos rfl

theorem find_superset (ctx : Ctx) (s : St) (f : List ℤ) (m w m1 w1 : List ℚ)
    (hfl : ctx.X_filter = some f)
    (hmiss : lookupA s.normalization_files (statsKey ctx) = none)
    (hnf : lookupA s.normalization_files .noFilt = some (m, w))
    (hm : applyFancy f m = some m1)
    (hw : applyFancy f w = some w1) :
    ∃ s' e, find_normalization_factors ctx s = (s', e) ∧
      s'.norm_mu = some m1 ∧ s'.norm_width = some w1 ∧
      s'.normalization_files = s.normalization_files ∧
      s'.normalize_x = s.normalize_x ∧
      (ctx.verbose = true → e = some .nameError) := by
  cases hv : ctx.verbose
  · rcases hb : buildAux (getItemNR ctx) ctx
      { s with norm_mu := some m1, norm_width := some w1 } with ⟨t, e⟩
    have hf := buildAux_frameNR hb
    refine ⟨t, e, ?_, hf.2.1, hf.2.2.1, hf.2.2.2, hf.1, ?_⟩
    · unfold find_normalization_factors
      rw [hmiss]
      simp only []
      rw [hfl]
      simp only []
      rw [hnf]
      simp only []
      rw [hm]
      simp only []
      rw [hw]
      simp only []
      rw [hv]
      exact hb
    · intro hvt
      simp at hvt
  · refine ⟨{ s with norm_mu := some m1, norm_width := some w1 }, some .nameError,
      ?_, rfl, rfl, rfl, rfl, fun _ => rfl⟩
    unfold find_normalization_factors
    rw [hmiss]
    simp only []
    rw [hfl]
    simp only []
    rw [hnf]
    simp only []
    rw [hm]
    simp only []
    rw [hw]
    simp only []
    rw [hv]
    exact if_pos rfl

theorem find_fresh (ctx : Ctx) (s : St)
    (hmiss1 : lookupA s.normalization_files (statsKey ctx) = none)
    (hmiss2 : ctx.X_filter = none ∨ lookupA s.normalization_files .noFilt = none) :
    find_normalization_factors ctx s = freshNorm ctx s := by
  unfold find_normalization_factors
  rw [hmiss1]
  simp only []
  rcases hfl : ctx.X_filter with _ | f
  · rfl
  · rcases hmiss2 with h | h
    · rw [hfl] at h
      cases h
    · rw [h]

theorem freshNorm_err (ctx : Ctx) (s s2 : St) (items : List Entry) (err : Err)
    (hp : freshPass ctx s = (s2, items, some err)) :
    freshNorm ctx s = (s2, some err) := by
  unfold freshNorm
  rw [hp]

theorem freshNorm_eq (ctx : Ctx) (s s2 : St) (items : List Entry)
    (hp : freshPass ctx s = (s2, items, none)) :
    freshNorm ctx s = buildAux (getItemNR ctx) ctx { s2 with normalize_x := true, norm_mu := some (meanCols (items.map Prod.fst)), norm_width := some ((ctx.np_std (items.map Prod.fst)).map floorW), normalization_files := (statsKey ctx, (meanCols (items.map Prod.fst), (ctx.np_std (items.map Prod.fst)).map floorW)) :: s2.normalization_files } := by
  unfold freshNorm
  rw [hp]

theorem served_some (ctx : Ctx) (s : St) (j : ℕ)
    (hxf : (applyXFilter ctx (transform ctx j)).isSome) (hst : statsOk s) :
    (served ctx s j).isSome := by
  obtain ⟨xf, h2⟩ := Option.isSome_iff_exists.mp hxf
  unfold served
  rw [h2]
  cases hnx : s.normalize_x
  · simp
  · obtain ⟨hmu, hw⟩ := hst hnx
    rcases hmu2 : s.norm_mu with _ | mu
    · exact absurd hmu2 hmu
    · rcases hw2 : s.norm_width with _ | w
      · exact absurd hw2 hw
      · simp

theorem served_label (ctx : Ctx) (s : St) (j : ℕ) (v : Entry)
    (hv : served ctx s j = some v) : v.2 = labelOf (ligAt ctx j) := by
  unfold served at hv
  rcases hx : applyXFilter ctx (transform ctx j) with _ | xf
  · rw [hx] at hv
    cases hv
  · rw [hx] at hv
    cases hnx : s.normalize_x
    · rw [hnx] at hv
      simp only [Bool.false_eq_true, if_false] at hv
      cases hv
      rfl
    · rw [hnx] at hv
      simp only [if_true] at hv
      rcases hmu : s.norm_mu with _ | mu
      · rw [hmu] at hv
        cases hv
      · rw [hmu] at hv
        rcases hw : s.norm_width with _ | w
        · rw [hw] at hv
          cases hv
        · rw [hw] at hv
          cases hv
          rfl

theorem getD_map_range {α : Type} (n j : ℕ) (f : ℕ → α) (d : α) (hj : j < n) :
    ((List.range n).map f).getD j d = f j := by
  have hlen : j < ((List.range n).map f).length := by simpa using hj
  rw [List.getD_eq_getElem _ d hlen]
  simp

theorem servedAll_fst_getD (ctx : Ctx) (s : St) (j : ℕ) (v : Entry)
    (hj : j < ctx.ligs.length) (hv : served ctx s j = some v) :
    ((servedAll ctx s).map Prod.fst).getD j [] = v.1 := by
  unfold servedAll
  rw [List.map_map]
  rw [getD_map_range ctx.ligs.length j _ [] hj]
  simp [hv]

theorem servedAll_snd_getD (ctx : Ctx) (s : St) (j : ℕ) (v : Entry)
    (hj : j < ctx.ligs.length) (hv : served ctx s j = some v) :
    ((servedAll ctx s).map Prod.snd).getD j [] = v.2 := by
  unfold servedAll
  rw [List.map_map]
  rw [getD_map_range ctx.ligs.length j _ [] hj]
  simp [hv]

theorem servedAll_fst_length (ctx : Ctx) (s : St) :
    ((servedAll ctx s).map Prod.fst).length = ctx.ligs.length := by
  unfold servedAll
  simp

theorem servedAll_snd_length (ctx : Ctx) (s : St) :
    ((servedAll ctx s).map Prod.snd).length = ctx.ligs.length := by
  unfold servedAll
  simp

theorem memServe_served (ctx : Ctx) (s2 sref : St) (idx : ℤ) (j : ℕ) (v : Entry)
    (hj : pyIdx ctx.ligs.length idx = some j)
    (hv : served ctx sref j = some v) :
    memServe s2 ((servedAll ctx sref).map Prod.fst, (servedAll ctx sref).map Prod.snd)
      idx = .ok (v, s2) := by
  unfold memServe
  simp only []
  rw [servedAll_fst_length ctx sref, hj]
  simp only []
  rw [servedAll_snd_length ctx sref, hj]
  simp only []
  rw [servedAll_fst_getD ctx sref j v (pyIdx_lt hj) hv,
    servedAll_snd_getD ctx sref j v (pyIdx_lt hj) hv]
  rfl

theorem freshNorm_spec (ctx : Ctx) (s s2 : St) (items : List Entry)
    (hp : freshPass ctx s = (s2, items, none)) :
    ∃ s' e, freshNorm ctx s = (s', e) ∧
      s'.norm_mu = some (meanCols (items.map Prod.fst)) ∧
      s'.norm_width = some ((ctx.np_std (items.map Prod.fst)).map floorW) ∧
      s'.normalize_x = true := by
  rw [freshNorm_eq ctx s s2 items hp]
  rcases hb : buildAux (getItemNR ctx) ctx { s2 with normalize_x := true, norm_mu := some (meanCols (items.map Prod.fst)), norm_width := some ((ctx.np_std (items.map Prod.fst)).map floorW), normalization_files := (statsKey ctx, (meanCols (items.map Prod.fst), (ctx.np_std (items.map Prod.fst)).map floorW)) :: s2.normalization_files } with ⟨t, e⟩
  have hf := buildAux_frameNR hb
  exact ⟨t, e, rfl, hf.2.1, hf.2.2.1, hf.1⟩

/-- Concrete fixtures used by the witnesses below. -/
def molA : Mol := ⟨"a", some 1⟩

def molB : Mol := ⟨"b", none⟩

def blockFn : Mol → ℕ → List ℚ := fun m _ => [m.dG.getD 5, 3]

def stdZero : List (List ℚ) → List ℚ := fun xs => (xs.headD []).map (fun _ => 0)

def st0 : St := ⟨false, none, none, [], [], none⟩

/-- C9: because the selection digest is md5 over `np.packbits` of the boolean
mask and `packbits` zero-pads to a whole number of bytes, any two selections
that agree after padding with trailing `False` entries up to the next multiple
of 8 receive the same digest (so, e.g., the one-block selection `[1]` and the
eight-block selection `[1,0,0,0,0,0,0,0]` share a cache namespace); the same
holds for the filter digest used in the normalization-stats file name, whose
integer entries are first cast to booleans. -/
theorem C9_padding_digest_collision (s1 s2 : List Bool) (f1 f2 : List ℤ)
    (h1 : padTo8 s1 = padTo8 s2)
    (h2 : padTo8 (f1.map (fun i => decide (i ≠ 0))) =
          padTo8 (f2.map (fun i => decide (i ≠ 0)))) :
    selection_digest s1 = selection_digest s2 ∧ filter_digest f1 = filter_digest f2 := by
  constructor
  · unfold selection_digest packbits
    rw [h1]
  · unfold filter_digest packbits
    rw [h2]

/-- Witness for C9 at the concrete selections `[1]` vs `[1,0,0,0,0,0,0,0]`
and filters `[1]` vs `[1,0]`. -/
theorem C9_padding_digest_collision_witness :
    selection_digest [true] =
      selection_digest [true, false, false, false, false, false, false, false] ∧
    filter_digest [1] = filter_digest [1, 0] :=
  C9_padding_digest_collision [true]
    [true, false, false, false, false, false, false, false] [1] [1, 0]
    (by decide) (by decide)

/-- C2: for every molecule that lacks the label property `dG`, `__getitem__`
returns the not-a-number sentinel as the label (a length-1 array containing
NaN, modelled as `[none]`) and succeeds — it never raises on account of the
missing label.  The hypotheses put the call on the resolution path that reads
the label from the molecule (no materialized cache, and no stale combined-cache
entry for this molecule is served), with a well-formed filter and resolved
normalization configuration. -/
theorem C2_missing_label_nan (ctx : Ctx) (s : St) (idx : ℤ) (j : ℕ)
    (hj : pyIdx ctx.ligs.length idx = some j)
    (hint : s.internal_filtered_cache = none)
    (hst : statsOk s)
    (hdg : (ligAt ctx j).dG = none)
    (hcv : ∀ e, combined_lookup ctx s (ligAt ctx j).ID = some e → e = freshE ctx j)
    (hxf : (applyXFilter ctx (transform ctx j)).isSome) :
    ∃ X s', getItem ctx s idx = .ok ((X, [none]), s') := by
  obtain ⟨v, hv⟩ := Option.isSome_iff_exists.mp (served_some ctx s j hxf hst)
  obtain ⟨vx, vy⟩ := v
  have hl : vy = [none] := by
    have := served_label ctx s j (vx, vy) hv
    simp only at this
    rw [this]
    unfold labelOf
    rw [hdg]
  subst hl
  rw [getItem_eq_NR ctx s idx hst]
  obtain ⟨cc, hres, _, _, _⟩ := getItemNR_spec ctx s idx j (vx, [none]) hj hint hcv hv
  exact ⟨vx, { s with combined_cache := cc }, hres⟩

/-- Witness for C2: a one-molecule dataset whose molecule has no `dG`. -/
theorem C2_missing_label_nan_witness :
    ∃ X s', getItem ⟨[molB], [true], blockFn, none, true, false, 10, stdZero⟩ st0 0 =
      .ok ((X, [none]), s') :=
  C2_missing_label_nan ⟨[molB], [true], blockFn, none, true, false, 10, stdZero⟩ st0 0 0
    (by decide) rfl (by intro h; exact absurd h (by decide)) (by decide)
    (by intro e he; simp [combined_lookup, lookupA] at he) (by decide)

/-- C3: with an active feature filter, no filter-specific stats file, and an
existing "no filter" stats file, `find_normalization_factors` loads the
unfiltered `(mu, width)` rows and selects exactly the filtered indices from
them — the same stats as restricting the unfiltered statistics to the filtered
dimensions — and does not recompute from the samples: the stats files on disk
are unchanged (nothing is written) and `normalize_x` is not toggled by the
recompute branch. -/
theorem C3_superset_reuse (ctx : Ctx) (s : St) (f : List ℤ) (m w m1 w1 : List ℚ)
    (hfl : ctx.X_filter = some f)
    (hmiss : lookupA s.normalization_files (statsKey ctx) = none)
    (hnf : lookupA s.normalization_files .noFilt = some (m, w))
    (hm : applyFancy f m = some m1)
    (hw : applyFancy f w = some w1) :
    ∃ s' e, find_normalization_factors ctx s = (s', e) ∧
      s'.norm_mu = some m1 ∧ s'.norm_width = some w1 ∧
      s'.normalization_files = s.normalization_files ∧
      s'.normalize_x = s.normalize_x := by
  obtain ⟨s', e, heq, h1, h2, h3, h4, _⟩ := find_superset ctx s f m w m1 w1 hfl hmiss hnf hm hw
  exact ⟨s', e, heq, h1, h2, h3, h4⟩

/-- Witness for C3: filter `[1]` over 2-dimensional unfiltered stats. -/
theorem C3_superset_reuse_witness :
    ∃ s' e, find_normalization_factors
        ⟨[molA], [true], blockFn, some [1], true, false, 100, stdZero⟩
        { st0 with normalization_files := [(.noFilt, ([10, 20], [2, 4]))] } = (s', e) ∧
      s'.norm_mu = some [20] ∧ s'.norm_width = some [4] ∧
      s'.normalization_files = [(.noFilt, ([10, 20], [2, 4]))] ∧
      s'.normalize_x = false :=
  C3_superset_reuse ⟨[molA], [true], blockFn, some [1], true, false, 100, stdZero⟩
    { st0 with normalization_files := [(.noFilt, ([10, 20], [2, 4]))] }
    [1] [10, 20] [2, 4] [20] [4] rfl (by decide) (by decide) (by decide) (by decide)

/-- C8: when a stats file matching the current filter spec already exists,
re-running `find_normalization_factors` loads exactly the `(mu, width)` pair
stored in that file and never enters the recompute path: no new stats file is
written (the stats files are unchanged) and `normalize_x` is not toggled by the
recompute branch. -/
theorem C8_stats_file_reload (ctx : Ctx) (s : St) (m w : List ℚ)
    (hhit : lookupA s.normalization_files (statsKey ctx) = some (m, w)) :
    ∃ s' e, find_normalization_factors ctx s = (s', e) ∧
      s'.norm_mu = some m ∧ s'.norm_width = some w ∧
      s'.normalization_files = s.normalization_files ∧
      s'.normalize_x = s.normalize_x := by
  obtain ⟨s', e, heq, h1, h2, h3, h4, _⟩ := find_hit ctx s m w hhit
  exact ⟨s', e, heq, h1, h2, h3, h4⟩

/-- Witness for C8: a "no filter" dataset whose stats file exists. -/
theorem C8_stats_file_reload_witness :
    ∃ s' e, find_normalization_factors
        ⟨[molA], [true], blockFn, none, false, false, 1000, stdZero⟩
        { st0 with normalization_files := [(.noFilt, ([10, 20], [2, 4]))] } = (s', e) ∧
      s'.norm_mu = some [10, 20] ∧ s'.norm_width = some [2, 4] ∧
      s'.normalization_files = [(.noFilt, ([10, 20], [2, 4]))] ∧
      s'.normalize_x = false :=
  C8_stats_file_reload ⟨[molA], [true], blockFn, none, false, false, 1000, stdZero⟩
    { st0 with normalization_files := [(.noFilt, ([10, 20], [2, 4]))] }
    [10, 20] [2, 4] (by decide)

/-- C10: with `verbose=True`, both stats-file loading branches of
`find_normalization_factors` raise a `NameError` (their print references the
undefined local name `norm_mu` instead of `self.norm_mu`), so loading
previously persisted normalization factors runs to completion only when
`verbose` is `False`. -/
theorem C10_verbose_nameError (ctx : Ctx) (s : St)
    (hv : ctx.verbose = true)
    (hload : (∃ m w, lookupA s.normalization_files (statsKey ctx) = some (m, w)) ∨
      (∃ f m w m1 w1, ctx.X_filter = some f ∧
        lookupA s.normalization_files (statsKey ctx) = none ∧
        lookupA s.normalization_files .noFilt = some (m, w) ∧
        applyFancy f m = some m1 ∧ applyFancy f w = some w1)) :
    ∃ s', find_normalization_factors ctx s = (s', some .nameError) := by
  rcases hload with ⟨m, w, hhit⟩ | ⟨f, m, w, m1, w1, hfl, hmiss, hnf, hm, hw⟩
  · obtain ⟨s', e, heq, _, _, _, _, hverb⟩ := find_hit ctx s m w hhit
    exact ⟨s', by rw [heq, hverb hv]⟩
  · obtain ⟨s', e, heq, _, _, _, _, hverb⟩ :=
      find_superset ctx s f m w m1 w1 hfl hmiss hnf hm hw
    exact ⟨s', by rw [heq, hverb hv]⟩

/-- Witness for C10: a verbose dataset whose "no filter" stats file exists. -/
theorem C10_verbose_nameError_witness :
    ∃ s', find_normalization_factors
        ⟨[molA], [true], blockFn, none, false, true, 1000, stdZero⟩
        { st0 with normalization_files := [(.noFilt, ([10, 20], [2, 4]))] } =
      (s', some .nameError) :=
  C10_verbose_nameError ⟨[molA], [true], blockFn, none, false, true, 1000, stdZero⟩
    { st0 with normalization_files := [(.noFilt, ([10, 20], [2, 4]))] }
    rfl (Or.inl ⟨[10, 20], [2, 4], by decide⟩)

/-- C7: after a fresh computation of the normalization statistics (no stats
file exists, so `find_normalization_factors` takes the recompute branch),
every dimension whose computed standard deviation is below `1e-7` has its
stored width exactly `1.0`, and for such a dimension `normalize_input` divides
by `1`, so its output equals `x - mu` in that dimension. -/
theorem C7_width_floor (ctx : Ctx) (s s2 : St) (items : List Entry) (i : ℕ) (x : List ℚ)
    (hmiss1 : lookupA s.normalization_files (statsKey ctx) = none)
    (hmiss2 : ctx.X_filter = none ∨ lookupA s.normalization_files .noFilt = none)
    (hp : freshPass ctx s = (s2, items, none))
    (hi : i < (ctx.np_std (items.map Prod.fst)).length)
    (hsmall : (ctx.np_std (items.map Prod.fst)).getD i 0 < 1 / 10000000) :
    ∃ s' e M W, find_normalization_factors ctx s = (s', e) ∧
      s'.norm_mu = some M ∧ s'.norm_width = some W ∧
      W.getD i 0 = 1 ∧
      normalize_input ctx s' x = .ok (normVec x M W, s') ∧
      (i < x.length → i < M.length →
        (normVec x M W).getD i 0 = x.getD i 0 - M.getD i 0) := by
  rw [find_fresh ctx s hmiss1 hmiss2]
  obtain ⟨s', e, heq, hmu, hwid, _⟩ := freshNorm_spec ctx s s2 items hp
  refine ⟨s', e, meanCols (items.map Prod.fst),
    (ctx.np_std (items.map Prod.fst)).map floorW, heq, hmu, hwid, ?_, ?_, ?_⟩
  · rw [getD_map_floorW _ i hi]
    unfold floorW
    rw [if_pos hsmall]
  · unfold normalize_input
    rw [hmu]
    simp only []
    rw [hwid]
  · intro hx hm
    have hW : i < ((ctx.np_std (items.map Prod.fst)).map floorW).length := by
      simpa using hi
    rw [normVec_getD x _ _ i hx hm hW, getD_map_floorW _ i hi]
    unfold floorW
    rw [if_pos hsmall, div_one]

/-- Witness for C7: a one-molecule dataset with constant features, so the
standard deviation of every dimension is `0 < 1e-7`. -/
theorem C7_width_floor_witness :
    ∃ s' e M W, find_normalization_factors
        ⟨[molA], [true], blockFn, none, false, false, 1000, stdZero⟩ st0 = (s', e) ∧
      s'.norm_mu = some M ∧ s'.norm_width = some W ∧
      W.getD 0 0 = 1 ∧
      normalize_input ⟨[molA], [true], blockFn, none, false, false, 1000, stdZero⟩ s'
        [7, 9] = .ok (normVec [7, 9] M W, s') ∧
      ((0 : ℕ) < ([7, 9] : List ℚ).length → 0 < M.length →
        (normVec [7, 9] M W).getD 0 0 = ([7, 9] : List ℚ).getD 0 0 - M.getD 0 0) :=
  C7_width_floor ⟨[molA], [true], blockFn, none, false, false, 1000, stdZero⟩ st0 st0
    [([1, 3], [some 1])] 0 [7, 9] (by decide) (Or.inl rfl) (by decide) (by decide)
    (by norm_num [stdZero, blockFn])

/-- A one-molecule configuration exercising the index bound behaviour of
`__getitem__`. -/
def ctxC5 : Ctx := ⟨[molB], [true], fun _ _ => [1], none, false, false, 0, stdZero⟩

/-- Counterexample to C5 as stated: `-1` lies outside `[0, length)`, yet
`__getitem__` does not raise an `IndexError` — Python list indexing accepts
negative indices, and `ligs[-1]` of the one-molecule dataset returns its only
sample. -/
theorem C5_negative_index_counterexample :
    getItem ctxC5 st0 (-1) = .ok (([1], [none]), st0) := rfl

/-- C5 (amended): `__getitem__` raises an `IndexError` for every index outside
`[-length, length)`; under a well-formed configuration (no materialized cache,
resolved normalization when enabled, in-range filter indices, and no stale
combined-cache entry for the molecule) every index in `[0, length)` returns
that sample's `(feature vector, label)` pair, and every negative index in
`[-length, 0)` does not raise but returns the pair of the sample at
`length + idx`, per Python list semantics. -/
theorem C5_bounds_amended (ctx : Ctx) (s : St) (idx : ℤ) :
    ((idx < -(ctx.ligs.length : ℤ) ∨ (ctx.ligs.length : ℤ) ≤ idx) →
      getItem ctx s idx = .error .indexError) ∧
    (0 ≤ idx → idx < (ctx.ligs.length : ℤ) →
      s.internal_filtered_cache = none → statsOk s →
      (applyXFilter ctx (transform ctx idx.toNat)).isSome →
      (∀ e, combined_lookup ctx s (ligAt ctx idx.toNat).ID = some e →
        e = freshE ctx idx.toNat) →
      ∃ v s', getItem ctx s idx = .ok (v, s') ∧ served ctx s idx.toNat = some v) ∧
    (-(ctx.ligs.length : ℤ) ≤ idx → idx < 0 →
      s.internal_filtered_cache = none → statsOk s →
      (applyXFilter ctx (transform ctx (idx + (ctx.ligs.length : ℤ)).toNat)).isSome →
      (∀ e, combined_lookup ctx s
          (ligAt ctx (idx + (ctx.ligs.length : ℤ)).toNat).ID = some e →
        e = freshE ctx (idx + (ctx.ligs.length : ℤ)).toNat) →
      ∃ v s', getItem ctx s idx = .ok (v, s') ∧
        served ctx s (idx + (ctx.ligs.length : ℤ)).toNat = some v) := by
  refine ⟨?_, ?_, ?_⟩
  · intro h
    rw [getItem, getItemAux_outOfRange (pyIdx_out h)]
  · intro h0 hn hint hst hxf hcv
    have hj : pyIdx ctx.ligs.length idx = some idx.toNat := pyIdx_of_nonneg h0 hn
    obtain ⟨v, hv⟩ := Option.isSome_iff_exists.mp (served_some ctx s idx.toNat hxf hst)
    rw [getItem_eq_NR ctx s idx hst]
    obtain ⟨cc, hres, _, _, _⟩ := getItemNR_spec ctx s idx idx.toNat v hj hint hcv hv
    exact ⟨v, { s with combined_cache := cc }, hres, hv⟩
  · intro h0 hn hint hst hxf hcv
    have hj : pyIdx ctx.ligs.length idx = some (idx + (ctx.ligs.length : ℤ)).toNat :=
      pyIdx_of_neg h0 hn
    obtain ⟨v, hv⟩ := Option.isSome_iff_exists.mp
      (served_some ctx s (idx + (ctx.ligs.length : ℤ)).toNat hxf hst)
    rw [getItem_eq_NR ctx s idx hst]
    obtain ⟨cc, hres, _, _, _⟩ := getItemNR_spec ctx s idx
      (idx + (ctx.ligs.length : ℤ)).toNat v hj hint hcv hv
    exact ⟨v, { s with combined_cache := cc }, hres, hv⟩

/-- Witness for C5 (amended): index 5 raises, index 0 serves the sample, and
index `-1` serves the sample at `length + idx = 0`. -/
theorem C5_bounds_amended_witness :
    getItem ctxC5 st0 5 = .error .indexError ∧
    (∃ v s', getItem ctxC5 st0 0 = .ok (v, s') ∧ served ctxC5 st0 0 = some v) ∧
    (∃ v s', getItem ctxC5 st0 (-1) = .ok (v, s') ∧
      served ctxC5 st0 ((-1 : ℤ) + (ctxC5.ligs.length : ℤ)).toNat = some v) :=
  ⟨(C5_bounds_amended ctxC5 st0 5).1 (by decide),
   (C5_bounds_amended ctxC5 st0 0).2.1 (by decide) (by decide) rfl
     (by intro h; exact absurd h (by decide)) (by decide)
     (fun e he => nomatch he),
   (C5_bounds_amended ctxC5 st0 (-1)).2.2 (by decide) (by decide) rfl
     (by intro h; exact absurd h (by decide)) (by decide)
     (fun e he => nomatch he)⟩

/-- C4: for a dataset whose estimated memory need — sample count times the
combined feature-plus-label width times the 8-byte element size — exceeds the
configured byte budget, `build_internal_filtered_cache` returns without
building: the materialized cache stays unset (never partially populated), and
every subsequent `__getitem__` call returns a value identical to the
un-materialized tiered path (the probe at index 0 only adds a coherent
combined-cache entry, which does not change any served value). -/
theorem C4_budget_skip (ctx : Ctx) (s : St) (v0 : Entry)
    (hnd : (ctx.ligs.map Mol.ID).Nodup)
    (hint : s.internal_filtered_cache = none)
    (hst : statsOk s)
    (hco : coherent ctx s.combined_cache)
    (hn : 0 < ctx.ligs.length)
    (hall : ∀ k, k < ctx.ligs.length → (served ctx s k).isSome)
    (hv0 : served ctx s 0 = some v0)
    (hbig : ctx.internal_cache_maxMem <
      ctx.ligs.length * (v0.1.length + v0.2.length) * 8) :
    ∃ s', build_internal_filtered_cache ctx s = (s', none) ∧
      s'.internal_filtered_cache = none ∧
      ∀ idx, (getItem ctx s' idx).map Prod.fst = (getItem ctx s idx).map Prod.fst := by
  rw [build_internal_filtered_cache, buildAux_congr ctx s hst]
  obtain ⟨cc, hb, hcoh⟩ := buildAux_skipNR ctx s v0 hnd hint hst hco hn hv0 hbig
  refine ⟨{ s with combined_cache := cc }, hb, hint, ?_⟩
  intro idx
  rw [getItem_eq_NR ctx s idx hst,
    getItem_eq_NR ctx { s with combined_cache := cc } idx hst]
  rcases hj : pyIdx ctx.ligs.length idx with _ | j
  · simp only [getItemNR, getItemAux_outOfRange hj]
  · have hjlt := pyIdx_lt hj
    obtain ⟨v, hv⟩ := Option.isSome_iff_exists.mp (hall j hjlt)
    obtain ⟨cc2, hres2, _, _, _⟩ := getItemNR_spec ctx { s with combined_cache := cc }
      idx j v hj hint (coherent_of_cv hcoh rfl hjlt) (served_update.trans hv)
    obtain ⟨cc1, hres1, _, _, _⟩ := getItemNR_spec ctx s idx j v hj hint
      (coherent_of_cv hco rfl hjlt) hv
    rw [hres1, hres2]
    rfl

/-- Witness for C4: a one-molecule dataset with a zero-byte budget. -/
theorem C4_budget_skip_witness :
    ∃ s', build_internal_filtered_cache
          ⟨[molA], [true], blockFn, none, true, false, 0, stdZero⟩ st0 = (s', none) ∧
      s'.internal_filtered_cache = none ∧
      ∀ idx, (getItem ⟨[molA], [true], blockFn, none, true, false, 0, stdZero⟩ s'
          idx).map Prod.fst =
        (getItem ⟨[molA], [true], blockFn, none, true, false, 0, stdZero⟩ st0
          idx).map Prod.fst :=
  C4_budget_skip ⟨[molA], [true], blockFn, none, true, false, 0, stdZero⟩ st0
    ([1, 3], [some 1]) (by decide) rfl (by intro h; exact absurd h (by decide))
    (by intro j hj; left; rfl) (by decide) (by decide) (by decide) (by decide)

/-- C1: for a fixed molecule and block selection, `__getitem__` returns the
bit-identical `(feature vector, label)` pair regardless of which tier serves
it.  Starting from a state with no combined-cache entry for the molecule and
no materialized cache, the first call computes fresh via `transform`, applies
filter and normalization, and writes the raw entry to the combined cache; the
second call deserializes that entry from the combined cache and post-processes
it to the same value; and once `build_internal_filtered_cache` succeeds in
materializing, the in-memory cache serves the same value again. -/
theorem C1_tier_equivalence (ctx : Ctx) (s : St) (idx : ℤ) (j : ℕ) (v : Entry)
    (hcu : ctx.use_combined_cache = true)
    (hj : pyIdx ctx.ligs.length idx = some j)
    (hint : s.internal_filtered_cache = none)
    (hst : statsOk s)
    (hnd : (ctx.ligs.map Mol.ID).Nodup)
    (hco : coherent ctx s.combined_cache)
    (hmiss : lookupA s.combined_cache (ligAt ctx j).ID = none)
    (hall : ∀ k, k < ctx.ligs.length → (served ctx s k).isSome)
    (hv : served ctx s j = some v) :
    ∃ s1, getItem ctx s idx = .ok (v, s1) ∧
      lookupA s1.combined_cache (ligAt ctx j).ID = some (freshE ctx j) ∧
      getItem ctx s1 idx = .ok (v, s1) ∧
      (∀ s2 e, build_internal_filtered_cache ctx s1 = (s2, e) →
        s2.internal_filtered_cache ≠ none →
        getItem ctx s2 idx = .ok (v, s2)) := by
  have hclk : combined_lookup ctx s (ligAt ctx j).ID = none := by
    unfold combined_lookup
    rw [hcu, if_pos rfl]
    exact hmiss
  have hcv : ∀ e, combined_lookup ctx s (ligAt ctx j).ID = some e → e = freshE ctx j := by
    intro e he
    rw [hclk] at he
    cases he
  obtain ⟨cc1, hres1, _, hforce, _⟩ := getItemNR_spec ctx s idx j v hj hint hcv hv
  have hcc1 : cc1 = ((ligAt ctx j).ID, freshE ctx j) :: s.combined_cache :=
    hforce hclk hcu
  subst hcc1
  refine ⟨{ s with combined_cache := ((ligAt ctx j).ID, freshE ctx j) :: s.combined_cache },
    ?_, ?_, ?_, ?_⟩
  · rw [getItem_eq_NR ctx s idx hst]
    exact hres1
  · rw [lookupA_cons, if_pos rfl]
  · have hclk1 : combined_lookup ctx
        { s with combined_cache := ((ligAt ctx j).ID, freshE ctx j) :: s.combined_cache }
        (ligAt ctx j).ID = some (freshE ctx j) := by
      unfold combined_lookup
      rw [hcu, if_pos rfl, lookupA_cons, if_pos rfl]
    have hcv1 : ∀ e, combined_lookup ctx
        { s with combined_cache := ((ligAt ctx j).ID, freshE ctx j) :: s.combined_cache }
        (ligAt ctx j).ID = some e → e = freshE ctx j := by
      intro e he
      rw [hclk1] at he
      cases he
      rfl
    obtain ⟨cc2, hres2, _, _, hkeep⟩ := getItemNR_spec ctx
      { s with combined_cache := ((ligAt ctx j).ID, freshE ctx j) :: s.combined_cache }
      idx j v hj hint hcv1 (served_update.trans hv)
    have hcc2 := hkeep _ hclk1
    subst hcc2
    refine Eq.trans (getItem_eq_NR ctx _ idx ?_) ?_
    · exact hst
    · rw [hres2, St_eta]
  · intro s2 e hbuild hne
    have hn : 0 < ctx.ligs.length := by
      have := pyIdx_lt hj
      omega
    have hco1 : coherent ctx
        (((ligAt ctx j).ID, freshE ctx j) :: s.combined_cache) :=
      coherent_insert hco hnd (pyIdx_lt hj)
    obtain ⟨v0, hv0⟩ := Option.isSome_iff_exists.mp (hall 0 hn)
    rw [build_internal_filtered_cache, buildAux_congr ctx
      { s with combined_cache := ((ligAt ctx j).ID, freshE ctx j) :: s.combined_cache }
      hst] at hbuild
    by_cases hmem : ctx.internal_cache_maxMem <
        ctx.ligs.length * (v0.1.length + v0.2.length) * 8
    · obtain ⟨cc3, hb, _⟩ := buildAux_skipNR ctx
        { s with combined_cache := ((ligAt ctx j).ID, freshE ctx j) :: s.combined_cache }
        v0 hnd hint hst hco1 hn (served_update.trans hv0) hmem
      rw [hb] at hbuild
      cases hbuild
      exact absurd hint hne
    · have hall1 : ∀ k, k < ctx.ligs.length → (served ctx
          { s with combined_cache := ((ligAt ctx j).ID, freshE ctx j) :: s.combined_cache }
          k).isSome := by
        intro k hk
        rw [served_update]
        exact hall k hk
      obtain ⟨cc3, hb, _⟩ := buildAux_buildNR ctx
        { s with combined_cache := ((ligAt ctx j).ID, freshE ctx j) :: s.combined_cache }
        v0 hnd hint hst hco1 hn hall1 (served_update.trans hv0) hmem
      rw [hb] at hbuild
      cases hbuild
      refine Eq.trans (getItem_eq_NR ctx _ idx ?_) ?_
      · exact hst
      · rw [getItemNR, getItemAux_mem hj rfl]
        exact memServe_served ctx _
          { s with combined_cache := ((ligAt ctx j).ID, freshE ctx j) :: s.combined_cache }
          idx j v hj (served_update.trans hv)

/-- Witness for C1: a one-molecule dataset with a budget large enough to
materialize. -/
theorem C1_tier_equivalence_witness :
    ∃ s1, getItem ⟨[molA], [true], blockFn, none, true, false, 1000000, stdZero⟩ st0 0 =
        .ok ((([1, 3], [some 1]) : Entry), s1) ∧
      lookupA s1.combined_cache
        (ligAt ⟨[molA], [true], blockFn, none, true, false, 1000000, stdZero⟩ 0).ID =
        some (freshE ⟨[molA], [true], blockFn, none, true, false, 1000000, stdZero⟩ 0) ∧
      getItem ⟨[molA], [true], blockFn, none, true, false, 1000000, stdZero⟩ s1 0 =
        .ok ((([1, 3], [some 1]) : Entry), s1) ∧
      (∀ s2 e, build_internal_filtered_cache
          ⟨[molA], [true], blockFn, none, true, false, 1000000, stdZero⟩ s1 = (s2, e) →
        s2.internal_filtered_cache ≠ none →
        getItem ⟨[molA], [true], blockFn, none, true, false, 1000000, stdZero⟩ s2 0 =
          .ok ((([1, 3], [some 1]) : Entry), s2)) :=
  C1_tier_equivalence ⟨[molA], [true], blockFn, none, true, false, 1000000, stdZero⟩
    st0 0 0 ([1, 3], [some 1]) rfl (by decide) rfl
    (by intro h; exact absurd h (by decide)) (by decide)
    (by intro j hj; left; rfl) rfl (by decide) (by decide)

end CD
